import Mathlib

/-!
Verification of the connectivity-matrix build-and-render pipeline of
`idaes_connectivity` (file `idaes_connectivity/base.py`).

The Python code is shallowly embedded: Python dicts become insertion-ordered
association lists, fallible statements become `Except PyErr`, and written
output becomes explicit strings / effect records.  Exception *messages* are
not modelled, only the exception class.
-/

set_option autoImplicit false

deriving instance DecidableEq for Except

namespace IC

/-- Exception classes that can be raised by the modelled code paths.
Messages are not modelled. -/
inductive PyErr where
  | valueError
  | indexError
  | keyError
  | attributeError
  | unboundLocalError
  | stopIteration
  | dataLoadError
  deriving DecidableEq, Repr

/-! ## Insertion-ordered dictionaries (Python `dict`) as association lists -/

/-- Python `d[k] = v`: update in place if the key exists, else append at the
end (insertion order is preserved). -/
def dinsert {α : Type} (k : String) (v : α) : List (String × α) → List (String × α)
  | [] => [(k, v)]
  | (k', v') :: t => if k' = k then (k, v) :: t else (k', v') :: dinsert k v t

/-- Python `d.get(k)` / `k in d`: first entry with the given key. -/
def alookup {α : Type} (k : String) : List (String × α) → Option α
  | [] => none
  | (k', v') :: t => if k' = k then some v' else alookup k t

@[simp] theorem alookup_nil {α : Type} (k : String) :
    alookup k ([] : List (String × α)) = none := rfl

theorem alookup_cons {α : Type} (k k' : String) (v' : α) (t : List (String × α)) :
    alookup k ((k', v') :: t) = if k' = k then some v' else alookup k t := rfl

theorem alookup_dinsert {α : Type} (k k' : String) (v : α) (l : List (String × α)) :
    alookup k' (dinsert k v l) = if k = k' then some v else alookup k' l := by
  induction l with
  | nil => simp [dinsert, alookup_cons]
  | cons p t ih =>
    obtain ⟨a, b⟩ := p
    by_cases hak : a = k
    · subst hak
      by_cases hk' : a = k' <;> simp [dinsert, alookup_cons, hk']
    · simp only [dinsert, if_neg hak]
      by_cases hk' : a = k'
      · subst hk'
        have : ¬ k = a := fun h => hak h.symm
        simp [alookup_cons, this]
      · simp [alookup_cons, hk', ih]

/-- If the key is fresh, `dinsert` appends at the end. -/
theorem dinsert_eq_append {α : Type} (k : String) (v : α) (l : List (String × α))
    (h : alookup k l = none) : dinsert k v l = l ++ [(k, v)] := by
  induction l with
  | nil => rfl
  | cons p t ih =>
    obtain ⟨a, b⟩ := p
    by_cases hak : a = k
    · subst hak; simp [alookup_cons] at h
    · simp only [alookup_cons, if_neg hak] at h
      simp [dinsert, hak, ih h]

/-! ## Cell values and normalization (`Connectivity._build_connections`, lines 331-351) -/

/-- A raw cell value as found in a data row: Python `str`, `int`, `float`,
or an object of any other type.  Floats are modelled by rationals (the code
never relies on rounding artifacts: it only truncates to an integer). -/
inductive Cell where
  | str (s : String)
  | int (n : ℤ)
  | float (q : ℚ)
  | other
  deriving DecidableEq, Repr

/-- Semantics of the Python string builtins the parser defers to.
`isBlank s` models `s.strip() == ""`; `toFloat s` models `float(s)` when it
parses to a finite value, and `none` when `float(s)` fails.  (Non-finite
floats such as `inf`/`nan` are outside this embedding.) -/
structure StrModel where
  isBlank : String → Bool
  toFloat : String → Option ℚ

/-- `int(x)` on a float: truncation toward zero. -/
def truncQ (q : ℚ) : ℤ := Int.tdiv q.num (q.den : ℤ)

/-- Lines 334-346: turn one raw cell into an integer connection value, or
raise `ValueError` (string that does not parse as a float, or a value of a
non-string non-numeric type). -/
def normalizeConn (M : StrModel) : Cell → Except PyErr ℤ
  | .str s =>
    if M.isBlank s then .ok 0
    else
      match M.toFloat s with
      | some q => .ok (truncQ q)
      | none => .error .valueError
  | .int n => .ok n
  | .float q => .ok (truncQ q)
  | .other => .error .valueError

/-- Lines 347-351: `ValueError` if the normalized value is not in `{-1, 0, 1}`. -/
def checkConn (v : ℤ) : Except PyErr ℤ :=
  if v = -1 ∨ v = 0 ∨ v = 1 then .ok v else .error .valueError

/-- Full handling of one cell: normalize, then range-check. -/
def connValue (M : StrModel) (c : Cell) : Except PyErr ℤ :=
  match normalizeConn M c with
  | .ok v => checkConn v
  | .error e => .error e

/-! A small concrete instance of `StrModel`, handling plain decimal literals
(optional sign, digits, optional fractional part).  It is used to instantiate
the abstract theorems on concrete inputs. -/

/-- Value of a nonempty all-digit character list. -/
def digitsToNat? (cs : List Char) : Option ℕ :=
  if cs ≠ [] ∧ cs.all Char.isDigit then
    some (cs.foldl (fun a c => a * 10 + (c.toNat - 48)) 0)
  else none

/-- Parse a plain decimal literal `[-]digits[.digits]` as a rational. -/
def parseDecimal (s : String) : Option ℚ :=
  let cs := s.toList
  let (neg, body) : Bool × List Char :=
    match cs with
    | '-' :: t => (true, t)
    | '+' :: t => (false, t)
    | _ => (false, cs)
  let sign : ℤ → ℤ := fun n => if neg then -n else n
  match body.splitOn '.' with
  | [d] => (digitsToNat? d).map (fun n => (mkRat (sign n) 1 : ℚ))
  | [d, f] =>
    match digitsToNat? d, digitsToNat? f with
    | some n, some m =>
      some (mkRat (sign (n * 10 ^ f.length + m)) (10 ^ f.length))
    | _, _ => none
  | _ => none

/-- Concrete string semantics used for witnesses: blank = all-whitespace,
floats = plain decimal literals. -/
def simpleStrModel : StrModel where
  isBlank s := s.toList.all Char.isWhitespace
  toFloat := parseDecimal

/-! ## Abbreviation assignment (`_build_units` lines 294-309, `_build_streams` lines 311-321) -/

/-- The abbreviation produced from counters `(c1, c2)`:
`"Unit_" + (chr(ord('A')+c2) if c2 > -1) + chr(ord('A')+c1)`. -/
def unitAbbrOf (c1 : ℕ) (c2 : ℤ) : String :=
  "Unit_" ++
    (if c2 > -1 then String.singleton (Char.ofNat (65 + c2.toNat)) else "") ++
    String.singleton (Char.ofNat (65 + c1))

/-- Counter update after one column: `c1 += 1; if c1 == 26: c1 = 0; c2 += 1`. -/
def unitStep : ℕ × ℤ → ℕ × ℤ
  | (c1, c2) => if c1 + 1 = 26 then (0, c2 + 1) else (c1 + 1, c2)

def buildUnitsGo (st : ℕ × ℤ) (units : List (String × String)) :
    List String → List (String × String)
  | [] => units
  | s :: rest => buildUnitsGo (unitStep st) (dinsert s (unitAbbrOf st.1 st.2) units) rest

/-- `_build_units`: columns `header[1:]` get positional abbreviations starting
from counters `(1, -1)`. -/
def buildUnits (header : List String) : List (String × String) :=
  buildUnitsGo (1, -1) [] (header.drop 1)

/-- The list of the first `n` unit abbreviations produced from state `st`. -/
def unitAbbrSeq (st : ℕ × ℤ) : ℕ → List String
  | 0 => []
  | n + 1 => unitAbbrOf st.1 st.2 :: unitAbbrSeq (unitStep st) n

def streamAbbr (n : ℕ) : String := "Stream_" ++ toString n

/-- `_build_streams`: empty rows are skipped, non-empty rows get
`Stream_{n}` with `n` starting at 3 and incremented per non-empty row. -/
def buildStreamsGo (n : ℕ) (streams : List (String × String)) :
    List (List String) → List (String × String)
  | [] => streams
  | [] :: rest => buildStreamsGo n streams rest
  | (s :: _) :: rest => buildStreamsGo (n + 1) (dinsert s (streamAbbr n) streams) rest

def buildStreams (rows : List (List String)) : List (String × String) :=
  buildStreamsGo 3 [] rows

/-- The list of `n` stream abbreviations starting at number `k`. -/
def streamAbbrSeq (k : ℕ) : ℕ → List String
  | 0 => []
  | n + 1 => streamAbbr k :: streamAbbrSeq (k + 1) n

/-! ## Connection table (`_build_connections`, lines 323-358) -/

/-- A stream's endpoint pair `[source_or_None, target_or_None]`. -/
abbrev Endpoints := Option String × Option String

/-- `connections[stream_abbr][conn_index] = unit_abbr` (line 357): `KeyError`
if the key is absent; index 0 sets the source slot, index 1 the target slot. -/
def setConn (k : String) (idx : ℕ) (u : String) :
    List (String × Endpoints) → Except PyErr (List (String × Endpoints))
  | [] => .error .keyError
  | (k', e) :: t =>
    if k' = k then .ok ((k', if idx = 0 then (some u, e.2) else (e.1, some u)) :: t)
    else
      match setConn k idx u t with
      | .error err => .error err
      | .ok t' => .ok ((k', e) :: t')

/-- The inner column loop `for col in range(1, n_cols)` of one row
(lines 331-357).  `row[col]` out of range raises `IndexError`. -/
def procCols (M : StrModel) (header : List String)
    (units streams : List (String × String)) (streamName : String)
    (row : List String) :
    List (String × Endpoints) → List ℕ → Except PyErr (List (String × Endpoints))
  | conns, [] => .ok conns
  | conns, col :: rest =>
    match row.get? col with
    | none => .error .indexError
    | some cell =>
      match connValue M (.str cell) with
      | .error e => .error e
      | .ok v =>
        if v = 0 then procCols M header units streams streamName row conns rest
        else
          match header.get? col with
          | none => .error .indexError
          | some unitName =>
            match alookup streamName streams with
            | none => .error .keyError
            | some sAbbr =>
              match alookup unitName units with
              | none => .error .keyError
              | some uAbbr =>
                match setConn sAbbr (max v 0).toNat uAbbr conns with
                | .error e => .error e
                | .ok conns' => procCols M header units streams streamName row conns' rest

/-- One iteration of the row loop: empty rows are skipped (`if not row:
continue`), otherwise `row[0]` names the stream and columns `1..n_cols-1`
are processed. -/
def procRow (M : StrModel) (header : List String)
    (units streams : List (String × String))
    (conns : List (String × Endpoints)) (row : List String) :
    Except PyErr (List (String × Endpoints)) :=
  match row with
  | [] => .ok conns
  | s :: _ => procCols M header units streams s row conns (List.range' 1 (header.length - 1))

def buildConnsGo (M : StrModel) (header : List String)
    (units streams : List (String × String))
    (conns : List (String × Endpoints)) :
    List (List String) → Except PyErr (List (String × Endpoints))
  | [] => .ok conns
  | row :: rest =>
    match procRow M header units streams conns row with
    | .error e => .error e
    | .ok conns' => buildConnsGo M header units streams conns' rest

/-- `connections = {s: [None, None] for s in streams.values()}` (line 326). -/
def initConns (streams : List (String × String)) : List (String × Endpoints) :=
  streams.foldl (fun acc p => dinsert p.2 ((none : Option String), (none : Option String)) acc) []

def buildConnections (M : StrModel) (header : List String)
    (units streams : List (String × String)) (rows : List (List String)) :
    Except PyErr (List (String × Endpoints)) :=
  buildConnsGo M header units streams (initConns streams) rows

/-! ## The `Connectivity` object -/

/-- The attributes of a built `Connectivity`.  Attributes that some
construction paths never set (`_header`, `_rows`, `_unit_values`,
`_stream_values`) are `Option`s; `none` models the missing attribute.
Annotation values are modelled by their display string. -/
structure Conn where
  header : Option (List String)
  rows : Option (List (List String))
  units : List (String × String)
  unitClasses : List (String × String)
  streams : List (String × String)
  connections : List (String × Endpoints)
  unitValues : Option (List (String × List (String × String)))
  streamValues : Option (List (String × List (String × String)))
  deriving DecidableEq, Repr

/-- `{k: v for k in keys}`-style dict build. -/
def constDict {α : Type} (v : α) (keys : List (String × String)) : List (String × α) :=
  keys.foldl (fun acc p => dinsert p.1 v acc) []

/-- Direct construction from pre-built `units`, `streams`, `connections`
(lines 129-133): `_header`, `_rows`, `_unit_values`, `_stream_values` are
never set on this path. -/
def connOfParts (units streams : List (String × String))
    (connections : List (String × Endpoints)) : Conn :=
  { header := none, rows := none, units := units,
    unitClasses := constDict "Component" units,
    streams := streams, connections := connections,
    unitValues := none, streamValues := none }

/-- An input source for the tabular path (lines 155-170): a CSV file (whose
file object may or may not have a `.name` attribute) or an in-memory
`input_data` list.  The CSV reader itself is external; a file is modelled by
its parsed rows. -/
inductive Source where
  | file (name : Option String) (content : List (List String))
  | data (matrix : List (List String))

/-- Lines 155-170: obtain `_header` and `_rows`, raising `DataLoadError` when
the row set is empty — except that building that error evaluates
`datafile.name`, which raises `AttributeError` for a stream without `.name`
and `UnboundLocalError` on the `input_data` branch where `datafile` was
never assigned.  An empty file raises `StopIteration` from `next(reader)`,
and empty `input_data` raises `IndexError` from `input_data[0]`. -/
def loadHeaderRows : Source → Except PyErr (List String × List (List String))
  | .file name content =>
    match content with
    | [] => .error .stopIteration
    | h :: t =>
      if t = [] then
        match name with
        | some _ => .error .dataLoadError
        | none => .error .attributeError
      else .ok (h, t)
  | .data m =>
    match m with
    | [] => .error .indexError
    | h :: t =>
      if t = [] then .error .unboundLocalError
      else .ok (h, t)

/-- The tabular construction path (lines 155-179): load header and rows,
then build units, classes, value maps, streams, and connections. -/
def connFromSource (M : StrModel) (src : Source) : Except PyErr Conn :=
  match loadHeaderRows src with
  | .error e => .error e
  | .ok (header, rows) =>
    let units := buildUnits header
    let streams := buildStreams rows
    match buildConnections M header units streams rows with
    | .error e => .error e
    | .ok conns =>
      .ok { header := some header, rows := some rows, units := units,
            unitClasses := constDict "Component" units,
            streams := streams, connections := conns,
            unitValues := some (constDict [] units),
            streamValues := some (constDict [] streams) }

def connFromData (M : StrModel) (matrix : List (List String)) : Except PyErr Conn :=
  connFromSource M (.data matrix)

/-- `as_table` (lines 288-292): header plus rows; accessing the `_header` /
`_rows` attributes raises `AttributeError` when they were never set. -/
def Conn.asTable (c : Conn) : Except PyErr (List (List String)) :=
  match c.header, c.rows with
  | some h, some r => .ok (h :: r)
  | _, _ => .error .attributeError

/-! ## Annotation setters (lines 193-259) -/

/-- `set_stream_value`: `KeyError` when the name is not a key of
`_stream_values`; `AttributeError` when that attribute was never set. -/
def Conn.setStreamValue (c : Conn) (name key v : String) : Except PyErr Conn :=
  match c.streamValues with
  | none => .error .attributeError
  | some svs =>
    match alookup name svs with
    | none => .error .keyError
    | some values =>
      .ok { c with streamValues := some (dinsert name (dinsert key v values) svs) }

/-- `clear_stream_values`: `self._stream_values = {}`. -/
def Conn.clearStreamValues (c : Conn) : Conn := { c with streamValues := some [] }

/-- `set_unit_value`: same semantics as `setStreamValue` on `_unit_values`. -/
def Conn.setUnitValue (c : Conn) (name key v : String) : Except PyErr Conn :=
  match c.unitValues with
  | none => .error .attributeError
  | some uvs =>
    match alookup name uvs with
    | none => .error .keyError
    | some values =>
      .ok { c with unitValues := some (dinsert name (dinsert key v values) uvs) }

/-- `clear_unit_values`: `self._unit_values = {}`. -/
def Conn.clearUnitValues (c : Conn) : Conn := { c with unitValues := some [] }

/-! ## Output destinations and the shared `Formatter` write contract
(`_get_output_stream` lines 523-531, `_write_return` lines 515-521) -/

/-- A `write()` destination: `None`, a path/filename, or an already-open
stream (which may or may not be an in-memory `StringIO`, with its current
contents). -/
inductive Dest where
  | null
  | path (p : String)
  | stream (isMemBuf : Bool) (init : String)
  deriving DecidableEq, Repr

/-- Observable outcome of a `write()` call.  `written` is the full contents
of the destination after the call; `closedFile` records whether the code
ever calls `close()` on a file it opened (it does not). -/
structure WriteResult where
  returned : Option String
  openedPath : Option String
  closedFile : Bool
  written : String
  deriving DecidableEq, Repr

/-- `f = _get_output_stream(dest)`, write `text` to `f`, then
`_write_return(f)`: `StringIO` streams (including a fresh one for `None`)
return their full contents; no stream is ever closed. -/
def writeText (text : String) : Dest → WriteResult
  | .null =>
    { returned := some text, openedPath := none, closedFile := false, written := text }
  | .path p =>
    { returned := none, openedPath := some p, closedFile := false, written := text }
  | .stream isBuf init =>
    { returned := if isBuf then some (init ++ text) else none,
      openedPath := none, closedFile := false, written := init ++ text }

/-! ## CSV formatter (`CSV.write`, lines 540-549), `excel` dialect -/

def csvNeedsQuote (s : String) : Bool :=
  s.toList.any (fun c => c = ',' ∨ c = '"' ∨ c = '\r' ∨ c = '\n')

def csvQuote (s : String) : String :=
  "\"" ++ String.join (s.toList.map (fun c => if c = '"' then "\"\"" else String.singleton c)) ++ "\""

/-- Minimal quoting of one field among others: quote only fields containing
the delimiter, the quote character, or a line-terminator character; double
embedded quotes.  (The row-level special case for a single empty field is in
`csvRowStr`.) -/
def csvField (s : String) : String := if csvNeedsQuote s then csvQuote s else s

/-- One row in the `excel` dialect.  A row consisting of exactly one empty
field is written as a quoted empty field (`writerow([''])` emits `'""'`, so
the row does not read back as an empty line); otherwise the fields are
minimally quoted and joined by the delimiter. -/
def csvRowStr (r : List String) : String :=
  if r = [""] then "\"\"" ++ "\r\n"
  else String.intercalate "," (r.map csvField) ++ "\r\n"

def csvTable (t : List (List String)) : String :=
  String.join (t.map csvRowStr)

/-- `CSV.write`: get the output stream, serialize `as_table()` row by row,
then `_write_return`.  (The output stream is obtained before `as_table` is
called; when `as_table` raises, the exception propagates.) -/
def csvWrite (c : Conn) (d : Dest) : Except PyErr WriteResult :=
  match c.asTable with
  | .error e => .error e
  | .ok t => .ok (writeText (csvTable t) d)

/-! ## Mermaid formatter (`Mermaid`, lines 552-707) -/

/-- Diagram direction (`const.Direction`). -/
inductive Direction where
  | right
  | down
  deriving DecidableEq, Repr

/-- `{v: k for k, v in d.items()}`: reversed dictionary, later duplicate
values overwrite earlier ones. -/
def reverseDict (l : List (String × String)) : List (String × String) :=
  l.foldl (fun acc p => dinsert p.2 p.1 acc) []

structure MermaidCfg where
  streamLabels : Bool := false
  streamValues : Bool := false
  unitValues : Bool := false
  unitClass : Bool := false
  indent : String := "    "
  deriving DecidableEq, Repr

/-- `_clean_stream_label` (lines 700-707). -/
def cleanStreamLabel (label : String) : String :=
  let label :=
    if label.endsWith "_outlet" then label.dropRight 7
    else if label.endsWith "_feed" then label.dropRight 5
    else label
  label.replace "_" " "

/-- `_format_stream_values` (lines 641-646): `k = v` pairs joined by newlines. -/
def formatStreamValues (data : List (String × String)) : String :=
  String.intercalate "\n" (data.map (fun p => p.1 ++ " = " ++ p.2))

/-- The per-stream value nodes of `_body` (lines 617-625), returning the
written chunks and the accumulated `_streams_with_values` names (a Python
set, modelled in insertion order). -/
def mermaidValueNodes (i : String) (streams : List (String × String)) (labels : Bool) :
    List (String × List (String × String)) → Except PyErr (List String × List String)
  | [] => .ok ([], [])
  | (name, values) :: rest =>
    if values = [] then mermaidValueNodes i streams labels rest
    else
      match alookup name streams with
      | none => .error .keyError
      | some abbr =>
        let svName := abbr ++ "_V"
        let svText := formatStreamValues values
        let svText := if labels then name ++ "\n" ++ svText else svText
        match mermaidValueNodes i streams labels rest with
        | .error e => .error e
        | .ok (chunks, swv) =>
          .ok ((i ++ svName ++ "(\"" ++ svText ++ "\")\n") :: chunks, svName :: swv)

/-- The stream-values preamble of `_body` (lines 613-627): `classDef` line,
one value node per annotated stream, and the `class` line. -/
def mermaidStreamValuesSection (i : String) (streams : List (String × String))
    (svals : Option (List (String × List (String × String)))) (labels : Bool) :
    Except PyErr (List String × List String) :=
  match svals with
  | none => .error .attributeError
  | some sv =>
    match mermaidValueNodes i streams labels sv with
    | .error e => .error e
    | .ok (chunks, swv) =>
      .ok ((i ++ "classDef streamval fill:#fff,stroke:#666,stroke-width:1px,font-size:80%;\n")
            :: chunks ++ [i ++ "class " ++ String.intercalate "," swv ++ " streamval;\n"], swv)

/-- One unit of `_get_mermaid_units` (lines 648-661). -/
def mermaidUnitChunk (cfg : MermaidCfg) (unitClasses : List (String × String))
    (unitValues : Option (List (String × List (String × String))))
    (name abbr : String) : Except PyErr String :=
  let qname := "\"" ++ name ++ "\""
  let d1 : Except PyErr String :=
    if cfg.unitClass then
      match alookup name unitClasses with
      | none => .error .keyError
      | some klass => .ok (qname ++ "::" ++ klass)
    else .ok qname
  match d1 with
  | .error e => .error e
  | .ok display =>
    if cfg.unitValues then
      match unitValues with
      | none => .error .attributeError
      | some uvs =>
        match alookup name uvs with
        | none => .error .keyError
        | some values =>
          if values = [] then .ok (abbr ++ "[" ++ display ++ "]")
          else .ok (abbr ++ "[" ++ display ++ "\n" ++
                    String.intercalate "\n" (values.map (fun p => p.1 ++ "=" ++ p.2)) ++ "]")
    else .ok (abbr ++ "[" ++ display ++ "]")

def mermaidUnitsSection (cfg : MermaidCfg) (unitClasses : List (String × String))
    (unitValues : Option (List (String × List (String × String)))) :
    List (String × String) → Except PyErr (List String)
  | [] => .ok []
  | (name, abbr) :: rest =>
    match mermaidUnitChunk cfg unitClasses unitValues name abbr with
    | .error e => .error e
    | .ok chunk =>
      match mermaidUnitsSection cfg unitClasses unitValues rest with
      | .error e => .error e
      | .ok chunks => .ok (chunk :: chunks)

/-- `_get_mermaid_streams` (lines 663-666): a stream's node declaration. -/
def mermaidStreamDecl (name abbr : String) : String :=
  abbr ++ "([" ++ "\"" ++ name ++ "\"" ++ "])"

/-- The stream-declaration phase of `_body` (lines 634-636): only streams in
`show_streams` are declared as nodes. -/
def mermaidStreamSection (i : String) (streams : List (String × String))
    (visible : List String) : List String :=
  streams.filterMap (fun p =>
    if p.2 ∈ visible then some (i ++ mermaidStreamDecl p.1 p.2 ++ "\n") else none)

/-- The connection lines of `_get_connections` for one stream (lines 679-697). -/
def mermaidEntryLines (cfg : MermaidCfg) (swv : List String) (name abbr : String) :
    Endpoints → List String
  | (some src, some tgt) =>
    if cfg.streamValues then
      let svName := abbr ++ "_V"
      if svName ∈ swv then [src ++ " --- " ++ svName, svName ++ " --> " ++ tgt]
      else [src ++ " --> " ++ tgt]
    else if cfg.streamLabels then
      [src ++ " -- " ++ cleanStreamLabel name ++ " -->" ++ tgt]
    else [src ++ " --> " ++ tgt]
  | (some src, none) => [src ++ " --> " ++ abbr]
  | (none, some tgt) => [abbr ++ " --> " ++ tgt]
  | (none, none) => []

/-- The `show_streams` additions of `_get_connections` for one stream
(lines 694 and 697): only streams with exactly one endpoint are shown. -/
def mermaidEntryShow (abbr : String) : Endpoints → List String
  | (some _, some _) => []
  | (some _, none) => [abbr]
  | (none, some _) => [abbr]
  | (none, none) => []

/-- `_get_connections` (lines 671-698): returns the connection lines and the
set of stream abbreviations to show as nodes.  The reverse stream map lookup
(line 677) raises `KeyError` for a connection key that is not a stream
abbreviation. -/
def mermaidGetConnections (cfg : MermaidCfg) (rmap : List (String × String))
    (swv : List String) :
    List (String × Endpoints) → Except PyErr (List String × List String)
  | [] => .ok ([], [])
  | (abbr, e) :: rest =>
    match alookup abbr rmap with
    | none => .error .keyError
    | some name =>
      match mermaidGetConnections cfg rmap swv rest with
      | .error err => .error err
      | .ok (lines, vis) =>
        .ok (mermaidEntryLines cfg swv name abbr e ++ lines,
             mermaidEntryShow abbr e ++ vis)

/-- `Mermaid._body` (lines 608-639): the written chunks, in order —
`flowchart` line, optional stream-values preamble, unit lines, visible
stream node lines, connection lines. -/
def mermaidBody (cfg : MermaidCfg) (dir : Direction) (c : Conn) :
    Except PyErr (List String) :=
  let i := cfg.indent
  let flowLine := "flowchart " ++ (if dir = .right then "LR" else "TD") ++ "\n"
  match (if cfg.streamValues then
           mermaidStreamValuesSection i c.streams c.streamValues cfg.streamLabels
         else .ok ([], [])) with
  | .error e => .error e
  | .ok (valChunks, swv) =>
    match mermaidGetConnections cfg (reverseDict c.streams) swv c.connections with
    | .error e => .error e
    | .ok (lines, vis) =>
      match mermaidUnitsSection cfg c.unitClasses c.unitValues c.units with
      | .error e => .error e
      | .ok unitChunks =>
        .ok (flowLine :: valChunks ++ unitChunks.map (fun s => i ++ s ++ "\n")
              ++ mermaidStreamSection i c.streams vis
              ++ lines.map (fun s => i ++ s ++ "\n"))

/-! ## D2 formatter (`D2`, lines 710-851) -/

structure D2Cfg where
  streamLabels : Bool := false
  streamValues : Bool := false
  unitValues : Bool := false
  unitClass : Bool := false
  deriving DecidableEq, Repr

/-- Python `f"{x}"` on an `Optional[str]`: `None` renders as the four
characters `None`. -/
def pyStrOpt : Option String → String
  | some s => s
  | none => "None"

/-- `_format_values` / `_get_unit_values` body (lines 840-851): `k = v`
pairs joined by a literal backslash-n. -/
def d2FormatValues (data : List (String × String)) : String :=
  String.intercalate "\\n" (data.map (fun p => p.1 ++ " = " ++ p.2))

/-- A single-quote character, written via its code point. -/
def sq : String := String.singleton (Char.ofNat 39)

/-- `D2.STREAM_VALUE_CLASS` (lines 760-762). -/
def d2StreamValueClass : String :=
  "\x7bstyle: \x7bfont-color: " ++ sq ++ "#666" ++ sq ++ "; stroke: " ++ sq ++ "#ccc" ++ sq
    ++ "; fill: " ++ sq ++ "white" ++ sq ++ "; border-radius: 8\x7d\x7d"

/-- The unit declarations of `D2.write` (lines 776-799). -/
def d2UnitChunks (cfg : D2Cfg) (iconOf : String → Option String)
    (unitClasses : List (String × String))
    (unitValues : Option (List (String × List (String × String)))) :
    List (String × String) → Except PyErr (List String)
  | [] => .ok []
  | (name, abbr) :: rest =>
    match alookup name unitClasses with
    | none => .error .keyError
    | some utype =>
      let ustr := if cfg.unitClass then name ++ "::" ++ utype else name
      let dispE : Except PyErr String :=
        if cfg.unitValues then
          match unitValues with
          | none => .error .attributeError
          | some uvs =>
            match alookup name uvs with
            | none => .error .keyError
            | some values =>
              if values = [] then .ok ustr
              else .ok ("\"" ++ ustr ++ "\\n" ++ d2FormatValues values ++ "\"")
        else .ok ustr
      match dispE with
      | .error e => .error e
      | .ok disp =>
        let chunk :=
          match iconOf utype with
          | none => abbr ++ ": " ++ disp ++ "\n"
          | some img =>
            abbr ++ ": " ++ disp ++ " \x7b\n  shape: image\n  icon: " ++ img ++ "\n\x7d\n"
        match d2UnitChunks cfg iconOf unitClasses unitValues rest with
        | .error e => .error e
        | .ok chunks => .ok (chunk :: chunks)

/-- The stream loop of `D2.write` (lines 800-837), carrying the independent
feed and sink counters.  In the sink branch the code writes the edge as
`f"f{sink_num} -> {conns[1]}"`, although `conns[1]` is `None` there. -/
def d2StreamChunks (cfg : D2Cfg) (rmap : List (String × String))
    (svals : Option (List (String × List (String × String)))) :
    ℕ → ℕ → List (String × Endpoints) → Except PyErr (List String)
  | _, _, [] => .ok []
  | feedNum, sinkNum, (abbr, e) :: rest =>
    match alookup abbr rmap with
    | none => .error .keyError
    | some name =>
      match e with
      | (none, tgt) =>
        let chunks := ["f" ++ toString feedNum ++ ": Feed " ++ toString feedNum ++ "\n",
                       "f" ++ toString feedNum ++ " -> " ++ pyStrOpt tgt] ++
                      (if cfg.streamLabels then [": " ++ name] else []) ++ ["\n"]
        match d2StreamChunks cfg rmap svals (feedNum + 1) sinkNum rest with
        | .error e => .error e
        | .ok cs => .ok (chunks ++ cs)
      | (some _, none) =>
        let chunks := ["s" ++ toString sinkNum ++ ": Sink " ++ toString sinkNum ++ "\n",
                       "f" ++ toString sinkNum ++ " -> " ++ pyStrOpt (none : Option String)] ++
                      (if cfg.streamLabels then [toString sinkNum ++ ": " ++ name] else []) ++ ["\n"]
        match d2StreamChunks cfg rmap svals feedNum (sinkNum + 1) rest with
        | .error e => .error e
        | .ok cs => .ok (chunks ++ cs)
      | (some src, some tgt) =>
        let chunksE : Except PyErr (List String) :=
          if cfg.streamLabels ∧ ¬cfg.streamValues then
            .ok [src ++ " -> " ++ tgt ++ ": " ++ name, "\n"]
          else if cfg.streamValues then
            match svals with
            | none => .error .attributeError
            | some sv =>
              match alookup name sv with
              | none => .error .keyError
              | some v =>
                if v ≠ [] then
                  let vtext := d2FormatValues v
                  let vtext := if cfg.streamLabels then name ++ "\\n" ++ vtext else vtext
                  let node := "S_" ++ name
                  .ok [node ++ ": \"" ++ vtext ++ "\"\n",
                       node ++ ".class: stream_value\n",
                       src ++ " -> " ++ node ++ " -> " ++ tgt ++ "\n", "\n"]
                else if cfg.streamLabels then
                  .ok [src ++ " -> " ++ tgt ++ ": " ++ name, "\n"]
                else .ok [src ++ " -> " ++ tgt, "\n"]
          else .ok [src ++ " -> " ++ tgt, "\n"]
        match chunksE with
        | .error e => .error e
        | .ok chunks =>
          match d2StreamChunks cfg rmap svals feedNum sinkNum rest with
          | .error e => .error e
          | .ok cs => .ok (chunks ++ cs)

/-- `D2.write` (lines 764-838): direction line, optional classes block, unit
declarations, then the stream loop with feed/sink counters both starting
at 1. -/
def d2Write (cfg : D2Cfg) (dir : Direction) (iconOf : String → Option String)
    (c : Conn) : Except PyErr (List String) :=
  let dirLine := "direction: " ++ (if dir = .right then "right" else "down") ++ "\n"
  let classes : List String :=
    if cfg.streamValues ∨ cfg.unitValues then
      ["classes:\x7b\n"] ++
      (if cfg.streamValues then ["  stream_value: " ++ d2StreamValueClass ++ "\n"] else []) ++
      ["\x7d\n"]
    else []
  match d2UnitChunks cfg iconOf c.unitClasses c.unitValues c.units with
  | .error e => .error e
  | .ok unitChunks =>
    match d2StreamChunks cfg (reverseDict c.streams) c.streamValues 1 1 c.connections with
    | .error e => .error e
    | .ok streamChunks => .ok (dirLine :: classes ++ unitChunks ++ streamChunks)

/-! # Theorems -/

/-- **C10**: a `Connectivity` built directly from pre-built units, streams,
and connections has no tabular view: `as_table()` raises `AttributeError`
(the `_header`/`_rows` attributes were never set), and therefore `CSV.write`
raises `AttributeError` for every destination mode. -/
theorem direct_construction_no_table (units streams : List (String × String))
    (connections : List (String × Endpoints)) (d : Dest) :
    (connOfParts units streams connections).asTable = .error .attributeError ∧
    csvWrite (connOfParts units streams connections) d = .error .attributeError := by
  exact ⟨rfl, rfl⟩

/-- **C6**: on an input whose row set is empty after discarding the header,
the file path does raise `DataLoadError`, but the in-memory `input_data`
path raises `UnboundLocalError` instead: the `raise DataLoadError(
datafile.name, ...)` statement evaluates `datafile.name`, and `datafile` is
only assigned on the file branch. -/
theorem empty_rows_load_error_behavior :
    connFromSource simpleStrModel (.data [["Arcs", "U1"]]) = .error .unboundLocalError ∧
    connFromSource simpleStrModel (.file (some "data.csv") [["Arcs", "U1"]]) =
      .error .dataLoadError := by
  exact ⟨rfl, rfl⟩

/-- **C7**: for a stream with a source endpoint and no target endpoint, `D2.write`
declares the numbered sink node `s1: Sink 1` but then emits the edge chunk
`f1 -> None` (the code writes `f"f{sink_num} -> {conns[1]}"` with `conns[1]`
equal to `None`): no edge from the stream's source unit `Unit_B` to the sink
node `s1` is ever written. -/
theorem d2_sink_edge_behavior :
    d2Write {} .right (fun _ => none)
        (connOfParts [("U1", "Unit_B")] [("s1", "Stream_3")]
          [("Stream_3", (some "Unit_B", none))]) =
      .ok ["direction: right\n", "Unit_B: U1\n", "s1: Sink 1\n", "f1 -> None", "\n"] := by
  rfl

/-- **C8**: after `clear_stream_values` (resp. `clear_unit_values`), calling
`set_stream_value` (resp. `set_unit_value`) with a *known* stream (unit)
name raises `KeyError`, because the clear replaces the whole `_stream_values`
(`_unit_values`) dict with `{}` and the setter checks membership in that
dict rather than in the streams (units) mapping.  Before clearing, setting a
known name succeeds and an unknown name raises `KeyError`. -/
theorem clear_then_set_behavior :
    ∃ c, connFromData simpleStrModel [["Arcs", "U1"], ["s1", "1"]] = .ok c ∧
      (c.setStreamValue "s1" "k" "1").isOk = true ∧
      c.setStreamValue "nope" "k" "1" = .error .keyError ∧
      c.clearStreamValues.setStreamValue "s1" "k" "1" = .error .keyError ∧
      (c.setUnitValue "U1" "k" "1").isOk = true ∧
      c.setUnitValue "nope" "k" "1" = .error .keyError ∧
      c.clearUnitValues.setUnitValue "U1" "k" "1" = .error .keyError := by
  refine ⟨(connFromData simpleStrModel
      [["Arcs", "U1"], ["s1", "1"]]).toOption.getD (connOfParts [] [] []),
    rfl, rfl, rfl, rfl, rfl, rfl, rfl⟩

/-- The destination contract of `write()` as the specification states it.
This definition follows the spec's words (for comparison with `writeText`,
which follows the code): `None` returns the full text; a path/filename is
opened, written, **closed**, and nothing is returned; an already-open stream
is written, not closed, and nothing is returned. -/
def specWriteContract (text : String) (d : Dest) : Prop :=
  match d with
  | .null => (writeText text d).returned = some text
  | .path p =>
    (writeText text d).openedPath = some p ∧ (writeText text d).written = text ∧
    (writeText text d).closedFile = true ∧ (writeText text d).returned = none
  | .stream _ init =>
    (writeText text d).written = init ++ text ∧
    (writeText text d).returned = none ∧ (writeText text d).closedFile = false

/-- **C9 counterexample**: the claimed destination contract fails on the
code in two ways: a file opened for a path destination is never closed
(`_write_return` returns without closing it), and an already-open stream
that happens to be a `StringIO` gets its full contents returned (the
`isinstance(f, StringIO)` test in `_write_return` cannot distinguish the
internal buffer from a caller-supplied one). -/
theorem write_contract_counterexample :
    ¬ specWriteContract "x" (.path "out.csv") ∧
    ¬ specWriteContract "x" (.stream true "") := by
  constructor
  · intro h
    exact absurd h.2.2.1 (by simp [writeText])
  · intro h
    exact absurd h.2.1 (by simp [writeText])

/-- **C9 amended**: `write(destination)` by destination mode, for the CSV
formatter on any model with a tabular view: `None` returns the full rendered
text; a path destination records the opened file with the rendered text
written and returns nothing, but the file is never explicitly closed; an
already-open stream has the text appended, is not closed, and nothing is
returned — unless the stream is an in-memory `StringIO`, in which case its
full contents (prior content plus rendered text) are returned. -/
theorem csv_write_destination_modes (c : Conn) (hd : List String)
    (rws : List (List String)) (hh : c.header = some hd) (hr : c.rows = some rws)
    (p init : String) :
    csvWrite c .null =
      .ok { returned := some (csvTable (hd :: rws)), openedPath := none,
            closedFile := false, written := csvTable (hd :: rws) } ∧
    csvWrite c (.path p) =
      .ok { returned := none, openedPath := some p,
            closedFile := false, written := csvTable (hd :: rws) } ∧
    csvWrite c (.stream false init) =
      .ok { returned := none, openedPath := none,
            closedFile := false, written := init ++ csvTable (hd :: rws) } ∧
    csvWrite c (.stream true init) =
      .ok { returned := some (init ++ csvTable (hd :: rws)), openedPath := none,
            closedFile := false, written := init ++ csvTable (hd :: rws) } := by
  have ht : c.asTable = .ok (hd :: rws) := by
    simp [Conn.asTable, hh, hr]
  refine ⟨?_, ?_, ?_, ?_⟩ <;> simp [csvWrite, ht, writeText]

/-- Witness for C9's amended theorem at a concrete parsed model and path. -/
theorem csv_write_destination_modes_witness :
    csvWrite ((connFromData simpleStrModel
        [["Arcs", "U1"], ["s1", "1"]]).toOption.getD (connOfParts [] [] []))
      (.path "o.csv") =
      .ok { returned := none, openedPath := some "o.csv", closedFile := false,
            written := csvTable [["Arcs", "U1"], ["s1", "1"]] } := by
  exact (csv_write_destination_modes _ ["Arcs", "U1"] [["s1", "1"]]
    rfl rfl "o.csv" "").2.1

/-- **C2**: per-cell connection-value handling: an `int` is taken as-is; a
`float` is truncated toward zero (`truncQ` is exactly truncation toward
zero); a blank string yields 0 and is accepted; any other string is parsed
as a float and truncated, with a parse failure raising `ValueError`; any
other type raises `ValueError`; and after successful normalization a
`ValueError` is raised exactly when the integer is not in `{-1, 0, 1}` — in
particular `3/2` truncates to 1 and is accepted. -/
theorem conn_value_normalization (M : StrModel) :
    (∀ q : ℚ, truncQ q = if 0 ≤ q then ⌊q⌋ else ⌈q⌉) ∧
    (∀ n : ℤ, normalizeConn M (.int n) = .ok n) ∧
    (∀ q : ℚ, normalizeConn M (.float q) = .ok (truncQ q)) ∧
    (∀ s, M.isBlank s = true → connValue M (.str s) = .ok 0) ∧
    (∀ s q, M.isBlank s = false → M.toFloat s = some q →
      normalizeConn M (.str s) = .ok (truncQ q)) ∧
    (∀ s, M.isBlank s = false → M.toFloat s = none →
      connValue M (.str s) = .error .valueError) ∧
    (connValue M .other = .error .valueError) ∧
    (∀ c v, normalizeConn M c = .ok v →
      connValue M c =
        if v = -1 ∨ v = 0 ∨ v = 1 then .ok v else .error .valueError) ∧
    (truncQ (mkRat 3 2) = 1 ∧ connValue M (.float (mkRat 3 2)) = .ok 1) := by
  refine ⟨?_, fun n => rfl, fun q => rfl, ?_, ?_, ?_, rfl, ?_, by decide, ?_⟩
  · intro q
    by_cases h : 0 ≤ q
    · rw [if_pos h]
      unfold truncQ
      rw [Int.tdiv_eq_ediv (Rat.num_nonneg.mpr h) (by positivity), Rat.floor_def]
    · rw [if_neg h]
      unfold truncQ
      have hn : q.num ≤ 0 := le_of_lt (Rat.num_neg.mpr (lt_of_not_ge h))
      have hneg : q.num.tdiv q.den = -((-q.num).tdiv q.den) := by
        rw [Int.neg_tdiv]; ring
      rw [hneg, Int.tdiv_eq_ediv (by omega) (by positivity)]
      have hceil : ⌈q⌉ = -⌊-q⌋ := by rw [← Int.ceil_neg, neg_neg]
      rw [hceil, Rat.floor_def, Rat.neg_num, Rat.neg_den]
  · intro s hb
    simp [connValue, normalizeConn, hb, checkConn]
  · intro s q hb hf
    simp [normalizeConn, hb, hf]
  · intro s hb hf
    simp [connValue, normalizeConn, hb, hf]
  · intro c v h
    simp only [connValue, h, checkConn]
  · show connValue M (.float (mkRat 3 2)) = .ok 1
    have h : truncQ (mkRat 3 2) = 1 := by decide
    simp [connValue, normalizeConn, h, checkConn]

/-- Witness for C2 on the concrete string model: `" "` is accepted as 0,
`"1.5"` normalizes to 1, and `"abc"` raises `ValueError`. -/
theorem conn_value_normalization_witness :
    connValue simpleStrModel (.str " ") = .ok 0 ∧
    normalizeConn simpleStrModel (.str "1.5") = .ok 1 ∧
    connValue simpleStrModel (.str "abc") = .error .valueError := by
  have H := conn_value_normalization simpleStrModel
  refine ⟨H.2.2.2.1 " " (by decide), ?_,
    H.2.2.2.2.2.1 "abc" (by decide) (by decide)⟩
  have h := H.2.2.2.2.1 "1.5" (mkRat 3 2) (by decide) (by decide)
  rw [h, H.2.2.2.2.2.2.2.2.1]

/-- The column loop only reads cells at the column indices it is given, so
cells beyond `header.length` are never touched. -/
theorem procCols_take (M : StrModel) (header : List String)
    (units streams : List (String × String)) (sn : String) (row : List String) :
    ∀ (cols : List ℕ) (conns : List (String × Endpoints)),
      (∀ c ∈ cols, c < header.length) →
      procCols M header units streams sn (row.take header.length) conns cols =
        procCols M header units streams sn row conns cols := by
  intro cols
  induction cols with
  | nil => intro conns _; rfl
  | cons c rest ih =>
    intro conns hc
    have hlt : c < header.length := hc c (List.mem_cons_self c rest)
    have hget : (row.take header.length).get? c = row.get? c := List.get?_take hlt
    have hrest : ∀ x ∈ rest, x < header.length := fun x hx => hc x (List.mem_cons_of_mem _ hx)
    cases hrow : row.get? c with
    | none => simp only [procCols, hget, hrow]
    | some cell =>
      cases hcv : connValue M (.str cell) with
      | error e => simp only [procCols, hget, hrow, hcv]
      | ok v =>
        by_cases hv : v = 0
        · simp only [procCols, hget, hrow, hcv, if_pos hv]
          exact ih conns hrest
        · simp only [procCols, hget, hrow, hcv, if_neg hv]
          cases hh : header.get? c with
          | none => rfl
          | some unitName =>
            dsimp only
            cases hs : alookup sn streams with
            | none => rfl
            | some sAbbr =>
              dsimp only
              cases hu : alookup unitName units with
              | none => rfl
              | some uAbbr =>
                dsimp only
                cases hsc : setConn sAbbr (max v 0).toNat uAbbr conns with
                | error e => rfl
                | ok conns' => exact ih conns' hrest

theorem procRow_take (M : StrModel) (header : List String)
    (units streams : List (String × String))
    (conns : List (String × Endpoints)) (row : List String) :
    procRow M header units streams conns (row.take header.length) =
      procRow M header units streams conns row := by
  cases row with
  | nil => rw [List.take_nil]
  | cons s t =>
    by_cases h0 : header.length = 0
    · rw [h0, List.take_zero]
      simp only [procRow, h0, List.range'_zero]
      rfl
    · obtain ⟨n, hn⟩ : ∃ n, header.length = n + 1 :=
        ⟨header.length - 1, by omega⟩
      rw [hn, List.take_succ_cons]
      simp only [procRow, hn, Nat.add_sub_cancel]
      have hmem : ∀ c ∈ List.range' 1 n, c < header.length := fun c hcm => by
        rw [List.mem_range'_1] at hcm
        omega
      have key := procCols_take M header units streams s (s :: t)
        (List.range' 1 n) conns hmem
      rw [hn, List.take_succ_cons] at key
      exact key

theorem buildConnsGo_take (M : StrModel) (header : List String)
    (units streams : List (String × String)) :
    ∀ (rows : List (List String)) (conns : List (String × Endpoints)),
      buildConnsGo M header units streams conns
          (rows.map (fun r => r.take header.length)) =
        buildConnsGo M header units streams conns rows := by
  intro rows
  induction rows with
  | nil => intro conns; rfl
  | cons row rest ih =>
    intro conns
    simp only [List.map_cons, buildConnsGo, procRow_take]
    cases procRow M header units streams conns row with
    | error e => rfl
    | ok c' => exact ih c'

/-- When every present cell of a too-short row is zero, the column loop hits
the first out-of-range column and raises `IndexError`. -/
theorem procCols_short (M : StrModel) (header : List String)
    (units streams : List (String × String)) (sn : String) (row : List String) :
    ∀ (cols : List ℕ) (conns : List (String × Endpoints)),
      (∀ c ∈ cols, ∀ cell, row.get? c = some cell → connValue M (.str cell) = .ok 0) →
      (∃ c ∈ cols, row.length ≤ c) →
      procCols M header units streams sn row conns cols = .error .indexError := by
  intro cols
  induction cols with
  | nil =>
    intro conns _ hex
    obtain ⟨c, hc, _⟩ := hex
    exact absurd hc (List.not_mem_nil c)
  | cons c rest ih =>
    intro conns hzero hex
    by_cases hlen : row.length ≤ c
    · have hnone : row.get? c = none := List.get?_eq_none.mpr hlen
      simp only [procCols, hnone]
    · have hlt : c < row.length := lt_of_not_ge hlen
      obtain ⟨cell, hcell⟩ : ∃ cell, row.get? c = some cell := by
        rw [List.get?_eq_get hlt]
        exact ⟨_, rfl⟩
      have hcv : connValue M (.str cell) = .ok 0 :=
        hzero c (List.mem_cons_self c rest) cell hcell
      simp only [procCols, hcell, hcv, if_pos rfl]
      refine ih conns (fun x hx => hzero x (List.mem_cons_of_mem _ hx)) ?_
      obtain ⟨c', hc', hlen'⟩ := hex
      rcases List.mem_cons.mp hc' with hceq | hmem
      · subst hceq; omega
      · exact ⟨c', hmem, hlen'⟩

/-- **C5 counterexample**: a non-empty data row with fewer cells than the
header is not handled leniently: construction from
`[["Arcs","U1","U2"],["s1","1"]]` raises `IndexError` when the column loop
reads the missing cell. -/
theorem short_row_indexerror :
    connFromData simpleStrModel [["Arcs", "U1", "U2"], ["s1", "1"]] =
      .error .indexError := by
  rfl

/-- **C5 amended**: excess trailing cells are ignored without error — the
connection table built from any row set equals the one built after
truncating every row to the header's length — but missing trailing cells
are fatal: a non-empty data row shorter than the header (here with all its
present cells normalizing to 0) makes `_build_connections` raise
`IndexError`.  Cell value errors remain the only other fatal errors of the
column loop. -/
theorem row_length_handling (M : StrModel) :
    (∀ (header : List String) (units streams : List (String × String))
        (rows : List (List String)),
      buildConnections M header units streams
          (rows.map (fun r => r.take header.length)) =
        buildConnections M header units streams rows) ∧
    (∀ (header : List String) (units streams : List (String × String))
        (row : List String),
      0 < row.length → row.length < header.length →
      (∀ cell ∈ row.drop 1, connValue M (.str cell) = .ok 0) →
      buildConnections M header units streams [row] = .error .indexError) := by
  constructor
  · intro header units streams rows
    exact buildConnsGo_take M header units streams rows (initConns streams)
  · intro header units streams row hpos hshort hcells
    obtain ⟨s, t, rfl⟩ : ∃ s t, row = s :: t := by
      cases row with
      | nil => simp at hpos
      | cons a b => exact ⟨a, b, rfl⟩
    show buildConnsGo M header units streams (initConns streams) [s :: t] =
      .error .indexError
    simp only [buildConnsGo, procRow]
    rw [procCols_short M header units streams s (s :: t)
      (List.range' 1 (header.length - 1)) (initConns streams) ?_ ?_]
    · intro c hc cell hcell
      rw [List.mem_range'_1] at hc
      have h1 : (1 : ℕ) ≤ c := hc.1
      have : ((s :: t).drop 1).get? (c - 1) = some cell := by
        rw [List.get?_drop]
        have : 1 + (c - 1) = c := by omega
        rw [this, hcell]
      exact hcells cell (List.get?_mem this)
    · refine ⟨(s :: t).length, ?_, le_refl _⟩
      rw [List.mem_range'_1]
      simp only [List.length_cons] at hshort ⊢
      omega

/-- Witness for C5's amended theorem: an oversized row parses the same as
its truncation, and a concrete short row raises `IndexError`. -/
theorem row_length_handling_witness :
    buildConnections simpleStrModel ["Arcs", "U1"]
        [("U1", "Unit_B")] [("s1", "Stream_3")] [["s1", "1", "9"]] =
      buildConnections simpleStrModel ["Arcs", "U1"]
        [("U1", "Unit_B")] [("s1", "Stream_3")] [["s1", "1"]] ∧
    buildConnections simpleStrModel ["Arcs", "U1", "U2"]
        [("U1", "Unit_B"), ("U2", "Unit_C")] [("s1", "Stream_3")] [["s1"]] =
      .error .indexError := by
  constructor
  · have h := (row_length_handling simpleStrModel).1 ["Arcs", "U1"]
      [("U1", "Unit_B")] [("s1", "Stream_3")] [["s1", "1", "9"]]
    calc buildConnections simpleStrModel ["Arcs", "U1"]
          [("U1", "Unit_B")] [("s1", "Stream_3")] [["s1", "1", "9"]]
        = buildConnections simpleStrModel ["Arcs", "U1"]
            [("U1", "Unit_B")] [("s1", "Stream_3")]
            ([["s1", "1", "9"]].map (fun r => r.take 2)) := h.symm
      _ = buildConnections simpleStrModel ["Arcs", "U1"]
            [("U1", "Unit_B")] [("s1", "Stream_3")] [["s1", "1"]] := by rfl
  · exact (row_length_handling simpleStrModel).2 ["Arcs", "U1", "U2"]
      [("U1", "Unit_B"), ("U2", "Unit_C")] [("s1", "Stream_3")] ["s1"]
      (by decide) (by decide) (by decide)

theorem alookup_append {α : Type} (k : String) (l₁ l₂ : List (String × α)) :
    alookup k (l₁ ++ l₂) =
      match alookup k l₁ with
      | some v => some v
      | none => alookup k l₂ := by
  induction l₁ with
  | nil => simp
  | cons p t ih =>
    obtain ⟨a, b⟩ := p
    by_cases hak : a = k <;> simp [alookup_cons, hak, ih]

theorem unitAbbrSeq_length (st : ℕ × ℤ) (n : ℕ) : (unitAbbrSeq st n).length = n := by
  induction n generalizing st with
  | zero => rfl
  | succ m ih => simp [unitAbbrSeq, ih]

theorem streamAbbrSeq_length (k n : ℕ) : (streamAbbrSeq k n).length = n := by
  induction n generalizing k with
  | zero => rfl
  | succ m ih => simp [streamAbbrSeq, ih]

/-- With distinct column names, `_build_units` pairs the names, in order,
with the abbreviation sequence generated by the counter state machine. -/
theorem buildUnitsGo_eq (names : List String) :
    ∀ (st : ℕ × ℤ) (acc : List (String × String)),
      names.Nodup → (∀ s ∈ names, alookup s acc = none) →
      buildUnitsGo st acc names = acc ++ names.zip (unitAbbrSeq st names.length) := by
  induction names with
  | nil =>
    intro st acc _ _
    simp [buildUnitsGo, unitAbbrSeq]
  | cons s rest ih =>
    intro st acc hnd hfresh
    simp only [buildUnitsGo, List.length_cons, unitAbbrSeq, List.zip_cons_cons]
    rw [dinsert_eq_append s _ acc (hfresh s (List.mem_cons_self _ _))]
    rw [ih (unitStep st) _ hnd.of_cons ?_]
    · simp
    · intro x hx
      rw [alookup_append, hfresh x (List.mem_cons_of_mem _ hx)]
      have hxs : ¬ s = x := by
        intro hxy
        subst hxy
        exact (List.nodup_cons.mp hnd).1 hx
      simp [alookup_cons, hxs]

/-- With distinct stream names, `_build_streams` pairs the first cells of
the non-empty rows, in order, with `Stream_3, Stream_4, …`. -/
theorem buildStreamsGo_eq (rows : List (List String)) :
    ∀ (n : ℕ) (acc : List (String × String)),
      (rows.filterMap List.head?).Nodup →
      (∀ s ∈ rows.filterMap List.head?, alookup s acc = none) →
      buildStreamsGo n acc rows =
        acc ++ (rows.filterMap List.head?).zip
          (streamAbbrSeq n (rows.filterMap List.head?).length) := by
  induction rows with
  | nil =>
    intro n acc _ _
    simp [buildStreamsGo, streamAbbrSeq]
  | cons row rest ih =>
    intro n acc hnd hfresh
    cases row with
    | nil =>
      simp only [List.filterMap_cons, List.head?] at hnd hfresh ⊢
      exact ih n acc hnd hfresh
    | cons s t =>
      simp only [List.filterMap_cons, List.head?] at hnd hfresh ⊢
      simp only [buildStreamsGo, List.length_cons, streamAbbrSeq, List.zip_cons_cons]
      rw [dinsert_eq_append s _ acc (hfresh s (List.mem_cons_self _ _))]
      rw [ih (n + 1) _ hnd.of_cons ?_]
      · simp
      · intro x hx
        rw [alookup_append, hfresh x (List.mem_cons_of_mem _ hx)]
        have hxs : ¬ s = x := by
          intro hxy
          subst hxy
          exact (List.nodup_cons.mp hnd).1 hx
        simp [alookup_cons, hxs]

/-- **C3**: abbreviation assignment is positional and deterministic.  With
distinct names, the columns `header[1:]` receive, left to right, the
abbreviations generated from counter state `(1, -1)` — concretely
`Unit_B … Unit_Z, Unit_AA, Unit_AB, …` (`Unit_A` is skipped) — and the
non-empty rows receive, top to bottom, `Stream_3, Stream_4, …`.  The
abbreviations depend only on the positions, not on the textual names, so
re-parsing the same input reproduces them. -/
theorem abbreviation_assignment :
    (∀ header : List String, (header.drop 1).Nodup →
      buildUnits header =
        (header.drop 1).zip (unitAbbrSeq (1, -1) (header.drop 1).length)) ∧
    unitAbbrSeq (1, -1) 27 =
      ["Unit_B", "Unit_C", "Unit_D", "Unit_E", "Unit_F", "Unit_G", "Unit_H",
       "Unit_I", "Unit_J", "Unit_K", "Unit_L", "Unit_M", "Unit_N", "Unit_O",
       "Unit_P", "Unit_Q", "Unit_R", "Unit_S", "Unit_T", "Unit_U", "Unit_V",
       "Unit_W", "Unit_X", "Unit_Y", "Unit_Z", "Unit_AA", "Unit_AB"] ∧
    (∀ rows : List (List String), (rows.filterMap List.head?).Nodup →
      buildStreams rows =
        (rows.filterMap List.head?).zip
          (streamAbbrSeq 3 (rows.filterMap List.head?).length)) ∧
    streamAbbrSeq 3 4 = ["Stream_3", "Stream_4", "Stream_5", "Stream_6"] ∧
    (∀ h₁ h₂ : List String, (h₁.drop 1).Nodup → (h₂.drop 1).Nodup →
      h₁.length = h₂.length →
      (buildUnits h₁).map Prod.snd = (buildUnits h₂).map Prod.snd) ∧
    (∀ r₁ r₂ : List (List String),
      (r₁.filterMap List.head?).Nodup → (r₂.filterMap List.head?).Nodup →
      (r₁.filterMap List.head?).length = (r₂.filterMap List.head?).length →
      (buildStreams r₁).map Prod.snd = (buildStreams r₂).map Prod.snd) := by
  have hunits : ∀ header : List String, (header.drop 1).Nodup →
      buildUnits header =
        (header.drop 1).zip (unitAbbrSeq (1, -1) (header.drop 1).length) := by
    intro header hnd
    unfold buildUnits
    rw [buildUnitsGo_eq (header.drop 1) (1, -1) [] hnd (by intro s _; rfl)]
    simp
  have hstreams : ∀ rows : List (List String), (rows.filterMap List.head?).Nodup →
      buildStreams rows =
        (rows.filterMap List.head?).zip
          (streamAbbrSeq 3 (rows.filterMap List.head?).length) := by
    intro rows hnd
    unfold buildStreams
    rw [buildStreamsGo_eq rows 3 [] hnd (by intro s _; rfl)]
    simp
  refine ⟨hunits, by decide, hstreams, by decide, ?_, ?_⟩
  · intro h₁ h₂ hnd₁ hnd₂ hlen
    have hd : (h₁.drop 1).length = (h₂.drop 1).length := by
      simp [List.length_drop, hlen]
    rw [hunits h₁ hnd₁, hunits h₂ hnd₂,
      List.map_snd_zip _ _ (by rw [unitAbbrSeq_length]),
      List.map_snd_zip _ _ (by rw [unitAbbrSeq_length]), hd]
  · intro r₁ r₂ hnd₁ hnd₂ hlen
    rw [hstreams r₁ hnd₁, hstreams r₂ hnd₂,
      List.map_snd_zip _ _ (by rw [streamAbbrSeq_length]),
      List.map_snd_zip _ _ (by rw [streamAbbrSeq_length]), hlen]

/-- Witness for C3 at concrete headers and rows. -/
theorem abbreviation_assignment_witness :
    buildUnits ["Arcs", "M01", "H02", "F03"] =
      [("M01", "Unit_B"), ("H02", "Unit_C"), ("F03", "Unit_D")] ∧
    buildStreams [["s01", "1"], [], ["s02", "0"]] =
      [("s01", "Stream_3"), ("s02", "Stream_4")] ∧
    (buildUnits ["Arcs", "M01", "H02"]).map Prod.snd =
      (buildUnits ["Arcs", "x", "y"]).map Prod.snd := by
  refine ⟨?_, ?_, ?_⟩
  · rw [abbreviation_assignment.1 ["Arcs", "M01", "H02", "F03"] (by decide)]
    rfl
  · rw [abbreviation_assignment.2.2.1 [["s01", "1"], [], ["s02", "0"]] (by decide)]
    rfl
  · exact abbreviation_assignment.2.2.2.2.1 ["Arcs", "M01", "H02"] ["Arcs", "x", "y"]
      (by decide) (by decide) (by decide)

theorem alookup_some_mem {α : Type} (k : String) (v : α) :
    ∀ l : List (String × α), alookup k l = some v → (k, v) ∈ l := by
  intro l
  induction l with
  | nil => intro h; simp at h
  | cons p t ih =>
    obtain ⟨a, b⟩ := p
    intro h
    rw [alookup_cons] at h
    by_cases hak : a = k
    · rw [if_pos hak] at h
      subst hak
      injection h with hv
      subst hv
      exact List.mem_cons_self _ _
    · rw [if_neg hak] at h
      exact List.mem_cons_of_mem _ (ih h)

theorem buildStreamsGo_lookup_mono (rows : List (List String)) :
    ∀ (n : ℕ) (acc : List (String × String)) (k : String),
      (alookup k acc).isSome = true →
      (alookup k (buildStreamsGo n acc rows)).isSome = true := by
  induction rows with
  | nil => intro n acc k h; exact h
  | cons row rest ih =>
    intro n acc k h
    cases row with
    | nil => exact ih n acc k h
    | cons s t =>
      refine ih (n + 1) _ k ?_
      rw [alookup_dinsert]
      by_cases hsk : s = k <;> simp [hsk, h]

/-- Every non-empty row's stream name is a key of the built streams dict. -/
theorem buildStreams_head_isSome (rows : List (List String)) (s : String)
    (t : List String) (hmem : (s :: t) ∈ rows) :
    (alookup s (buildStreams rows)).isSome = true := by
  unfold buildStreams
  suffices H : ∀ (rws : List (List String)) (n : ℕ) (acc : List (String × String)),
      (s :: t) ∈ rws →
      (alookup s (buildStreamsGo n acc rws)).isSome = true from H rows 3 [] hmem
  intro rws
  induction rws with
  | nil => intro n acc h; simp at h
  | cons row rest ih =>
    intro n acc h
    rcases List.mem_cons.mp h with heq | hmem'
    · subst heq
      refine buildStreamsGo_lookup_mono rest (n + 1) _ s ?_
      rw [alookup_dinsert]
      simp
    · cases row with
      | nil => exact ih n acc hmem'
      | cons a b => exact ih (n + 1) _ hmem'

theorem buildUnitsGo_lookup_mono (names : List String) :
    ∀ (st : ℕ × ℤ) (acc : List (String × String)) (k : String),
      (alookup k acc).isSome = true →
      (alookup k (buildUnitsGo st acc names)).isSome = true := by
  induction names with
  | nil => intro st acc k h; exact h
  | cons s rest ih =>
    intro st acc k h
    refine ih (unitStep st) _ k ?_
    rw [alookup_dinsert]
    by_cases hsk : s = k <;> simp [hsk, h]

/-- Every column name of `header[1:]` is a key of the built units dict. -/
theorem buildUnits_mem_isSome (header : List String) (u : String)
    (hmem : u ∈ header.drop 1) :
    (alookup u (buildUnits header)).isSome = true := by
  unfold buildUnits
  suffices H : ∀ (names : List String) (st : ℕ × ℤ) (acc : List (String × String)),
      u ∈ names → (alookup u (buildUnitsGo st acc names)).isSome = true from
    H (header.drop 1) (1, -1) [] hmem
  intro names
  induction names with
  | nil => intro st acc h; simp at h
  | cons s rest ih =>
    intro st acc h
    rcases List.mem_cons.mp h with heq | hmem'
    · subst heq
      refine buildUnitsGo_lookup_mono rest (unitStep st) _ u ?_
      rw [alookup_dinsert]
      simp
    · exact ih (unitStep st) _ hmem'

/-- Every abbreviation value of the streams dict is a key of the initial
connection table. -/
theorem initConns_isSome (streams : List (String × String)) (x ab : String)
    (h : (x, ab) ∈ streams) :
    (alookup ab (initConns streams)).isSome = true := by
  unfold initConns
  suffices H : ∀ (l : List (String × String)) (acc : List (String × Endpoints)),
      ((∃ y, (y, ab) ∈ l) ∨ (alookup ab acc).isSome = true) →
      (alookup ab (l.foldl (fun acc p =>
        dinsert p.2 ((none : Option String), (none : Option String)) acc) acc)).isSome = true from
    H streams [] (Or.inl ⟨x, h⟩)
  intro l
  induction l with
  | nil =>
    intro acc h'
    rcases h' with ⟨y, hy⟩ | h'
    · simp at hy
    · exact h'
  | cons p t ih =>
    intro acc h'
    simp only [List.foldl_cons]
    refine ih _ ?_
    rcases h' with ⟨y, hy⟩ | h'
    · rcases List.mem_cons.mp hy with heq | hmem
      · right
        rw [alookup_dinsert]
        have hpab : p.2 = ab := by rw [← heq]
        simp [hpab]
      · exact Or.inl ⟨y, hmem⟩
    · right
      rw [alookup_dinsert]
      by_cases hpk : p.2 = ab <;> simp [hpk, h']

/-- `connections[k][idx] = u` succeeds when `k` is a key, and does not change
the key set. -/
theorem setConn_ok (k : String) (idx : ℕ) (u : String) :
    ∀ l : List (String × Endpoints), (alookup k l).isSome = true →
      ∃ l', setConn k idx u l = .ok l' ∧
        ∀ k', (alookup k' l').isSome = (alookup k' l).isSome := by
  intro l
  induction l with
  | nil => intro h; simp at h
  | cons p t ih =>
    obtain ⟨a, e⟩ := p
    intro h
    by_cases hak : a = k
    · refine ⟨(a, if idx = 0 then (some u, e.2) else (e.1, some u)) :: t, ?_, ?_⟩
      · simp [setConn, hak]
      · intro k'
        rw [alookup_cons, alookup_cons]
        by_cases hak' : a = k' <;> simp [hak']
    · rw [alookup_cons, if_neg hak] at h
      obtain ⟨t', ht', hpres⟩ := ih h
      refine ⟨(a, e) :: t', ?_, ?_⟩
      · simp [setConn, hak, ht']
      · intro k'
        rw [alookup_cons, alookup_cons]
        by_cases hak' : a = k' <;> simp [hak', hpres k']

/-- The column loop succeeds when every processed column is in range for
both header and row, every cell is valid, and the stream/unit lookups
resolve; the key set of the connection table is unchanged. -/
theorem procCols_ok (M : StrModel) (header : List String)
    (units streams : List (String × String)) (sn : String) (row : List String)
    (hsn : (alookup sn streams).isSome = true)
    (hunits : ∀ u ∈ header.drop 1, (alookup u units).isSome = true) :
    ∀ (cols : List ℕ) (conns : List (String × Endpoints)),
      (∀ c ∈ cols, 1 ≤ c ∧ c < header.length ∧ c < row.length) →
      (∀ c ∈ cols, ∀ cell, row.get? c = some cell →
        (connValue M (.str cell)).isOk = true) →
      (∀ x ab, (x, ab) ∈ streams → (alookup ab conns).isSome = true) →
      ∃ conns', procCols M header units streams sn row conns cols = .ok conns' ∧
        ∀ k, (alookup k conns').isSome = (alookup k conns).isSome := by
  intro cols
  induction cols with
  | nil => intro conns _ _ _; exact ⟨conns, rfl, fun k => rfl⟩
  | cons c rest ih =>
    intro conns hbound hvalid hinv
    obtain ⟨h1c, hch, hcr⟩ := hbound c (List.mem_cons_self _ _)
    obtain ⟨cell, hcell⟩ : ∃ cell, row.get? c = some cell :=
      ⟨_, List.get?_eq_get hcr⟩
    have hval := hvalid c (List.mem_cons_self _ _) cell hcell
    obtain ⟨v, hv⟩ : ∃ v, connValue M (.str cell) = .ok v := by
      cases hcv : connValue M (.str cell) with
      | ok v => exact ⟨v, rfl⟩
      | error e =>
        rw [hcv] at hval
        simp [Except.isOk, Except.toBool] at hval
    by_cases hv0 : v = 0
    · have step : procCols M header units streams sn row conns (c :: rest) =
          procCols M header units streams sn row conns rest := by
        simp only [procCols, hcell, hv, if_pos hv0]
      rw [step]
      exact ih conns (fun x hx => hbound x (List.mem_cons_of_mem _ hx))
        (fun x hx => hvalid x (List.mem_cons_of_mem _ hx)) hinv
    · obtain ⟨unitName, hun⟩ : ∃ u, header.get? c = some u :=
        ⟨_, List.get?_eq_get hch⟩
      have humem : unitName ∈ header.drop 1 := by
        have hg : (header.drop 1).get? (c - 1) = some unitName := by
          rw [List.get?_drop]
          have hc1 : 1 + (c - 1) = c := by omega
          rw [hc1, hun]
        exact List.get?_mem hg
      obtain ⟨uAbbr, hua⟩ : ∃ a, alookup unitName units = some a := by
        have hu := hunits unitName humem
        cases h : alookup unitName units with
        | none => rw [h] at hu; simp at hu
        | some a => exact ⟨a, rfl⟩
      obtain ⟨sAbbr, hsa⟩ : ∃ a, alookup sn streams = some a := by
        cases h : alookup sn streams with
        | none => rw [h] at hsn; simp at hsn
        | some a => exact ⟨a, rfl⟩
      have hconns : (alookup sAbbr conns).isSome = true :=
        hinv sn sAbbr (alookup_some_mem _ _ _ hsa)
      obtain ⟨conns2, hset, hpres⟩ := setConn_ok sAbbr (max v 0).toNat uAbbr conns hconns
      have step : procCols M header units streams sn row conns (c :: rest) =
          procCols M header units streams sn row conns2 rest := by
        simp only [procCols, hcell, hv, if_neg hv0, hun, hsa, hua, hset]
      rw [step]
      obtain ⟨conns', hrec, hpres'⟩ := ih conns2
        (fun x hx => hbound x (List.mem_cons_of_mem _ hx))
        (fun x hx => hvalid x (List.mem_cons_of_mem _ hx))
        (fun x ab hm => by rw [hpres ab]; exact hinv x ab hm)
      exact ⟨conns', hrec, fun k => (hpres' k).trans (hpres k)⟩

/-- The row loop succeeds on a rectangular, cell-valid matrix. -/
theorem buildConnsGo_ok (M : StrModel) (header : List String)
    (units streams : List (String × String))
    (hunits : ∀ u ∈ header.drop 1, (alookup u units).isSome = true) :
    ∀ (rws : List (List String)) (conns : List (String × Endpoints)),
      (∀ r ∈ rws, r.length = header.length) →
      (∀ r ∈ rws, ∀ cel ∈ r.drop 1, (connValue M (.str cel)).isOk = true) →
      (∀ s t, (s :: t) ∈ rws → (alookup s streams).isSome = true) →
      (∀ x ab, (x, ab) ∈ streams → (alookup ab conns).isSome = true) →
      ∃ conns', buildConnsGo M header units streams conns rws = .ok conns' := by
  intro rws
  induction rws with
  | nil => intro conns _ _ _ _; exact ⟨conns, rfl⟩
  | cons row rest ih =>
    intro conns hrect hvalid hsns hinv
    cases row with
    | nil =>
      have step : buildConnsGo M header units streams conns ([] :: rest) =
          buildConnsGo M header units streams conns rest := rfl
      rw [step]
      exact ih conns (fun r hr => hrect r (List.mem_cons_of_mem _ hr))
        (fun r hr => hvalid r (List.mem_cons_of_mem _ hr))
        (fun s t ht => hsns s t (List.mem_cons_of_mem _ ht)) hinv
    | cons s t =>
      have hsn : (alookup s streams).isSome = true :=
        hsns s t (List.mem_cons_self _ _)
      have hlen : (s :: t).length = header.length :=
        hrect _ (List.mem_cons_self _ _)
      have hlen1 : 1 ≤ header.length := by
        rw [← hlen]
        simp
      obtain ⟨conns2, hpc, hpres⟩ := procCols_ok M header units streams s (s :: t)
        hsn hunits (List.range' 1 (header.length - 1)) conns
        (fun c hc => by
          rw [List.mem_range'_1] at hc
          refine ⟨hc.1, by omega, by rw [hlen]; omega⟩)
        (fun c hc cell hcell => by
          rw [List.mem_range'_1] at hc
          have hg : ((s :: t).drop 1).get? (c - 1) = some cell := by
            rw [List.get?_drop]
            have hc1 : 1 + (c - 1) = c := by omega
            rw [hc1, hcell]
          exact hvalid (s :: t) (List.mem_cons_self _ _) cell (List.get?_mem hg))
        hinv
      have step : buildConnsGo M header units streams conns ((s :: t) :: rest) =
          buildConnsGo M header units streams conns2 rest := by
        simp only [buildConnsGo, procRow, hpc]
      rw [step]
      exact ih conns2 (fun r hr => hrect r (List.mem_cons_of_mem _ hr))
        (fun r hr => hvalid r (List.mem_cons_of_mem _ hr))
        (fun s' t' ht => hsns s' t' (List.mem_cons_of_mem _ ht))
        (fun x ab hm => by rw [hpres ab]; exact hinv x ab hm)

/-- **C1**: for every rectangular string matrix (header plus at least one
data row) whose cells satisfy the cell-value invariant, construction
succeeds, `as_table()` returns exactly the original matrix, and `CSV.write`
serializes exactly that matrix with standard (minimal) CSV quoting, in every
destination mode. -/
theorem csv_roundtrip (M : StrModel) (header : List String)
    (rows : List (List String)) (hne : rows ≠ [])
    (hrect : ∀ r ∈ rows, r.length = header.length)
    (hvalid : ∀ r ∈ rows, ∀ cel ∈ r.drop 1, (connValue M (.str cel)).isOk = true) :
    ∃ c, connFromData M (header :: rows) = .ok c ∧
      c.header = some header ∧ c.rows = some rows ∧
      c.asTable = .ok (header :: rows) ∧
      ∀ d, csvWrite c d = .ok (writeText (csvTable (header :: rows)) d) := by
  obtain ⟨conns', hconns⟩ := buildConnsGo_ok M header (buildUnits header)
    (buildStreams rows)
    (fun u hu => buildUnits_mem_isSome header u hu) rows (initConns (buildStreams rows))
    hrect hvalid
    (fun s t ht => buildStreams_head_isSome rows s t ht)
    (fun x ab hm => initConns_isSome (buildStreams rows) x ab hm)
  have hload : loadHeaderRows (.data (header :: rows)) = .ok (header, rows) := by
    simp [loadHeaderRows, hne]
  have hBC : buildConnections M header (buildUnits header) (buildStreams rows) rows =
      .ok conns' := by
    unfold buildConnections
    exact hconns
  refine ⟨{ header := some header, rows := some rows, units := buildUnits header,
            unitClasses := constDict "Component" (buildUnits header),
            streams := buildStreams rows, connections := conns',
            unitValues := some (constDict [] (buildUnits header)),
            streamValues := some (constDict [] (buildStreams rows)) },
    ?_, rfl, rfl, rfl, fun d => rfl⟩
  unfold connFromData connFromSource
  rw [hload]
  dsimp only
  rw [hBC]

/-- Witness for C1 at the specification's end-to-end scenario-1 matrix. -/
theorem csv_roundtrip_witness :
    ∃ c, connFromData simpleStrModel
        [["Arcs", "M01", "H02", "F03"], ["s01", "-1", "1", "0"],
         ["s02", "0", "-1", "1"]] = .ok c ∧
      c.asTable = .ok
        [["Arcs", "M01", "H02", "F03"], ["s01", "-1", "1", "0"],
         ["s02", "0", "-1", "1"]] ∧
      csvWrite c .null =
        .ok { returned := some "Arcs,M01,H02,F03\r\ns01,-1,1,0\r\ns02,0,-1,1\r\n",
              openedPath := none, closedFile := false,
              written := "Arcs,M01,H02,F03\r\ns01,-1,1,0\r\ns02,0,-1,1\r\n" } := by
  obtain ⟨c, h1, _, _, h4, h5⟩ := csv_roundtrip simpleStrModel
    ["Arcs", "M01", "H02", "F03"]
    [["s01", "-1", "1", "0"], ["s02", "0", "-1", "1"]]
    (by decide) (by decide) (by decide)
  refine ⟨c, h1, h4, ?_⟩
  rw [h5 .null]
  rfl

/-- A chunk is in the stream-declaration phase exactly when it is the
declaration of a stream whose abbreviation is in `show_streams`. -/
theorem mermaidStreamSection_mem (i : String) (streams : List (String × String))
    (vis : List String) (chunk : String) :
    chunk ∈ mermaidStreamSection i streams vis ↔
      ∃ p ∈ streams, p.2 ∈ vis ∧ chunk = i ++ mermaidStreamDecl p.1 p.2 ++ "\n" := by
  unfold mermaidStreamSection
  rw [List.mem_filterMap]
  constructor
  · rintro ⟨p, hp, hf⟩
    by_cases hv : p.2 ∈ vis
    · rw [if_pos hv] at hf
      injection hf with hf
      exact ⟨p, hp, hv, hf.symm⟩
    · rw [if_neg hv] at hf
      exact absurd hf (by simp)
  · rintro ⟨p, hp, hv, hchunk⟩
    exact ⟨p, hp, by rw [if_pos hv, hchunk]⟩

/-- The `show_streams` set only contains keys of the connection table. -/
theorem mermaidGetConnections_vis_keys (cfg : MermaidCfg)
    (rmap : List (String × String)) (swv : List String) :
    ∀ (conns : List (String × Endpoints)) (lines vis : List String),
      mermaidGetConnections cfg rmap swv conns = .ok (lines, vis) →
      ∀ x ∈ vis, x ∈ conns.map Prod.fst := by
  intro conns
  induction conns with
  | nil =>
    intro lines vis h x hx
    simp only [mermaidGetConnections] at h
    injection h with h'
    cases h'
    exact absurd hx (List.not_mem_nil x)
  | cons p rest ih =>
    obtain ⟨a, e0⟩ := p
    intro lines vis h x hx
    cases halk : alookup a rmap with
    | none =>
      simp only [mermaidGetConnections, halk] at h
      exact absurd h (by simp)
    | some name =>
      cases hrec : mermaidGetConnections cfg rmap swv rest with
      | error err =>
        simp only [mermaidGetConnections, halk, hrec] at h
        exact absurd h (by simp)
      | ok pr =>
        obtain ⟨ls, vs⟩ := pr
        simp only [mermaidGetConnections, halk, hrec] at h
        injection h with h'
        cases h'
        rcases List.mem_append.mp hx with hxl | hxr
        · have hxa : x = a := by
            obtain ⟨s1, s2⟩ := e0
            cases s1 <;> cases s2 <;> simp [mermaidEntryShow] at hxl <;> exact hxl
          rw [hxa, List.map_cons]
          exact List.mem_cons_self _ _
        · rw [List.map_cons]
          exact List.mem_cons_of_mem _ (ih ls vs hrec x hxr)

/-- Per-entry behaviour of `_get_connections`: show-set membership is
exactly the one-endpoint condition, and the emitted connection line for each
endpoint configuration. -/
theorem mermaidGetConnections_spec (cfg : MermaidCfg)
    (rmap : List (String × String)) (swv : List String) :
    ∀ (conns : List (String × Endpoints)) (lines vis : List String),
      (conns.map Prod.fst).Nodup →
      mermaidGetConnections cfg rmap swv conns = .ok (lines, vis) →
      ∀ abbr e, (abbr, e) ∈ conns →
        ((abbr ∈ vis ↔
          (e.1.isSome = true ∧ e.2 = none) ∨ (e.1 = none ∧ e.2.isSome = true)) ∧
        (∀ u, e.1 = some u → e.2 = none → (u ++ " --> " ++ abbr) ∈ lines) ∧
        (∀ u, e.1 = none → e.2 = some u → (abbr ++ " --> " ++ u) ∈ lines) ∧
        (cfg.streamValues = false → cfg.streamLabels = false →
          ∀ u w, e.1 = some u → e.2 = some w → (u ++ " --> " ++ w) ∈ lines)) := by
  intro conns
  induction conns with
  | nil =>
    intro lines vis _ _ abbr e hmem
    exact absurd hmem (List.not_mem_nil _)
  | cons p rest ih =>
    obtain ⟨a, e0⟩ := p
    intro lines vis hnd h abbr e hmem
    cases halk : alookup a rmap with
    | none =>
      simp only [mermaidGetConnections, halk] at h
      exact absurd h (by simp)
    | some name =>
      cases hrec : mermaidGetConnections cfg rmap swv rest with
      | error err =>
        simp only [mermaidGetConnections, halk, hrec] at h
        exact absurd h (by simp)
      | ok pr =>
        obtain ⟨ls, vs⟩ := pr
        simp only [mermaidGetConnections, halk, hrec] at h
        injection h with h'
        cases h'
        rw [List.map_cons, List.nodup_cons] at hnd
        obtain ⟨hanotin, hndrest⟩ := hnd
        rcases List.mem_cons.mp hmem with heq | hmemrest
        · injection heq with heqa heqe
          subst heqa
          subst heqe
          have hanotvs : abbr ∉ vs := fun hin =>
            hanotin (mermaidGetConnections_vis_keys cfg rmap swv rest ls vs hrec abbr hin)
          refine ⟨?_, ?_, ?_, ?_⟩
          · constructor
            · intro hin
              rcases List.mem_append.mp hin with hl | hr
              · obtain ⟨s1, s2⟩ := e
                cases s1 <;> cases s2 <;>
                  simp [mermaidEntryShow] at hl <;> simp
              · exact absurd hr hanotvs
            · intro hcfg
              refine List.mem_append.mpr (Or.inl ?_)
              obtain ⟨s1, s2⟩ := e
              rcases hcfg with ⟨h1, h2⟩ | ⟨h1, h2⟩
              · dsimp only at h1 h2
                subst h2
                cases s1 with
                | none => simp at h1
                | some u => simp [mermaidEntryShow]
              · dsimp only at h1 h2
                subst h1
                cases s2 with
                | none => simp at h2
                | some u => simp [mermaidEntryShow]
          · intro u h1 h2
            refine List.mem_append.mpr (Or.inl ?_)
            obtain ⟨s1, s2⟩ := e
            dsimp only at h1 h2
            subst h1
            subst h2
            simp [mermaidEntryLines]
          · intro u h1 h2
            refine List.mem_append.mpr (Or.inl ?_)
            obtain ⟨s1, s2⟩ := e
            dsimp only at h1 h2
            subst h1
            subst h2
            simp [mermaidEntryLines]
          · intro hsv hsl u w h1 h2
            refine List.mem_append.mpr (Or.inl ?_)
            obtain ⟨s1, s2⟩ := e
            dsimp only at h1 h2
            subst h1
            subst h2
            simp [mermaidEntryLines, hsv, hsl]
        · have hx := ih ls vs hndrest hrec abbr e hmemrest
          have habbrvs : abbr ∈ vs ↔ abbr ∈ mermaidEntryShow a e0 ++ vs := by
            constructor
            · intro hin
              exact List.mem_append.mpr (Or.inr hin)
            · intro hin
              rcases List.mem_append.mp hin with hl | hr
              · exfalso
                have haba : abbr = a := by
                  obtain ⟨s1, s2⟩ := e0
                  cases s1 <;> cases s2 <;> simp [mermaidEntryShow] at hl <;> exact hl
                subst haba
                have hm : abbr ∈ List.map Prod.fst rest :=
                  List.mem_map_of_mem Prod.fst hmemrest
                exact hanotin hm
              · exact hr
          refine ⟨?_, ?_, ?_, ?_⟩
          · rw [← habbrvs]
            exact hx.1
          · intro u h1 h2
            exact List.mem_append.mpr (Or.inr (hx.2.1 u h1 h2))
          · intro u h1 h2
            exact List.mem_append.mpr (Or.inr (hx.2.2.1 u h1 h2))
          · intro hsv hsl u w h1 h2
            exact List.mem_append.mpr (Or.inr (hx.2.2.2 hsv hsl u w h1 h2))

/-- **C4**: in Mermaid output, every stream falls in exactly one of the four
endpoint configurations, and a stream is declared as a visible node iff it
has exactly one connected endpoint: a source-only stream contributes the
edge `<src> --> <abbr>` and its node declaration to the body, a target-only
stream contributes `<abbr> --> <tgt>` and its node declaration, and a stream
with both endpoints is never in `show_streams` (no stream node) though its
edge `<src> --> <tgt>` is emitted (shown in the no-label/no-value mode). -/
theorem mermaid_stream_rendering (cfg : MermaidCfg) (dir : Direction) (c : Conn)
    (chunks : List String)
    (hnodup : (c.connections.map Prod.fst).Nodup)
    (hbody : mermaidBody cfg dir c = .ok chunks) :
    (∀ e : Endpoints,
      ([e.1.isSome && e.2.isSome, e.1.isSome && !e.2.isSome,
        !e.1.isSome && e.2.isSome, !e.1.isSome && !e.2.isSome].count true) = 1) ∧
    ∃ swv lines vis,
      mermaidGetConnections cfg (reverseDict c.streams) swv c.connections =
        .ok (lines, vis) ∧
      (∀ ln ∈ lines, (cfg.indent ++ ln ++ "\n") ∈ chunks) ∧
      (∀ ch ∈ mermaidStreamSection cfg.indent c.streams vis, ch ∈ chunks) ∧
      ∀ abbr e, (abbr, e) ∈ c.connections →
        ((abbr ∈ vis ↔
          (e.1.isSome = true ∧ e.2 = none) ∨ (e.1 = none ∧ e.2.isSome = true)) ∧
        (∀ u, e.1 = some u → e.2 = none →
          (u ++ " --> " ++ abbr) ∈ lines ∧
          ∀ name, (name, abbr) ∈ c.streams →
            (cfg.indent ++ mermaidStreamDecl name abbr ++ "\n") ∈ chunks) ∧
        (∀ u, e.1 = none → e.2 = some u →
          (abbr ++ " --> " ++ u) ∈ lines ∧
          ∀ name, (name, abbr) ∈ c.streams →
            (cfg.indent ++ mermaidStreamDecl name abbr ++ "\n") ∈ chunks) ∧
        (e.1.isSome = true → e.2.isSome = true → abbr ∉ vis) ∧
        (cfg.streamValues = false → cfg.streamLabels = false →
          ∀ u w, e.1 = some u → e.2 = some w → (u ++ " --> " ++ w) ∈ lines)) := by
  refine ⟨?_, ?_⟩
  · intro e
    obtain ⟨s1, s2⟩ := e
    cases s1 <;> cases s2 <;> rfl
  · unfold mermaidBody at hbody
    dsimp only at hbody
    cases hval : (if cfg.streamValues then
        mermaidStreamValuesSection cfg.indent c.streams c.streamValues cfg.streamLabels
      else .ok ([], [])) with
    | error e =>
      rw [hval] at hbody
      exact absurd hbody (by simp)
    | ok pr =>
      obtain ⟨valChunks, swv⟩ := pr
      rw [hval] at hbody
      dsimp only at hbody
      cases hgc : mermaidGetConnections cfg (reverseDict c.streams) swv c.connections with
      | error e =>
        rw [hgc] at hbody
        exact absurd hbody (by simp)
      | ok pr2 =>
        obtain ⟨lines, vis⟩ := pr2
        rw [hgc] at hbody
        dsimp only at hbody
        cases hus : mermaidUnitsSection cfg c.unitClasses c.unitValues c.units with
        | error e =>
          rw [hus] at hbody
          exact absurd hbody (by simp)
        | ok unitChunks =>
          rw [hus] at hbody
          dsimp only at hbody
          injection hbody with hb
          subst hb
          have hspec := mermaidGetConnections_spec cfg (reverseDict c.streams) swv
            c.connections lines vis hnodup hgc
          have hsecsub : ∀ ch ∈ mermaidStreamSection cfg.indent c.streams vis,
              ch ∈ (("flowchart " ++ (if dir = .right then "LR" else "TD") ++ "\n")
                :: valChunks ++ unitChunks.map (fun s => cfg.indent ++ s ++ "\n")
                ++ mermaidStreamSection cfg.indent c.streams vis
                ++ lines.map (fun s => cfg.indent ++ s ++ "\n")) := by
            intro ch hch
            exact List.mem_cons_of_mem _
              (List.mem_append_left _ (List.mem_append_right _ hch))
          have hlinesub : ∀ ln ∈ lines,
              (cfg.indent ++ ln ++ "\n") ∈
                (("flowchart " ++ (if dir = .right then "LR" else "TD") ++ "\n")
                :: valChunks ++ unitChunks.map (fun s => cfg.indent ++ s ++ "\n")
                ++ mermaidStreamSection cfg.indent c.streams vis
                ++ lines.map (fun s => cfg.indent ++ s ++ "\n")) := by
            intro ln hln
            exact List.mem_cons_of_mem _
              (List.mem_append_right _ (List.mem_map_of_mem _ hln))
          refine ⟨swv, lines, vis, hgc, hlinesub, hsecsub, ?_⟩
          intro abbr e hmem
          obtain ⟨hiff, hsrc, htgt, hdefault⟩ := hspec abbr e hmem
          refine ⟨hiff, ?_, ?_, ?_, hdefault⟩
          · intro u h1 h2
            refine ⟨hsrc u h1 h2, ?_⟩
            intro name hname
            have hvis : abbr ∈ vis := hiff.mpr (Or.inl ⟨by rw [h1]; rfl, h2⟩)
            exact hsecsub _ ((mermaidStreamSection_mem _ _ _ _).mpr
              ⟨(name, abbr), hname, hvis, rfl⟩)
          · intro u h1 h2
            refine ⟨htgt u h1 h2, ?_⟩
            intro name hname
            have hvis : abbr ∈ vis := hiff.mpr (Or.inr ⟨h1, by rw [h2]; rfl⟩)
            exact hsecsub _ ((mermaidStreamSection_mem _ _ _ _).mpr
              ⟨(name, abbr), hname, hvis, rfl⟩)
          · intro h1 h2 hin
            rcases hiff.mp hin with ⟨-, h2n⟩ | ⟨h1n, -⟩
            · rw [h2n] at h2
              simp at h2
            · rw [h1n] at h1
              simp at h1

/-- A concrete parsed model with one internal stream, one feed (target
only), and one sink (source only), used to instantiate the Mermaid theorem. -/
def mermaidDemoConn : Conn :=
  (connFromData simpleStrModel
    [["Arcs", "U1", "U2"], ["int", "-1", "1"], ["feed", "0", "1"],
     ["snk", "-1", ""]]).toOption.getD (connOfParts [] [] [])

/-- Witness for C4: on the demo model (default configuration) the body
contains the sink stream's node declaration and edge, and the feed stream's
edge. -/
theorem mermaid_stream_rendering_witness :
    ∃ chunks, mermaidBody {} .right mermaidDemoConn = .ok chunks ∧
      ("    " ++ mermaidStreamDecl "snk" "Stream_5" ++ "\n") ∈ chunks ∧
      ("    " ++ "Unit_B --> Stream_5" ++ "\n") ∈ chunks ∧
      ("    " ++ "Stream_4 --> Unit_C" ++ "\n") ∈ chunks := by
  have hbody : mermaidBody {} .right mermaidDemoConn =
      .ok ((mermaidBody {} .right mermaidDemoConn).toOption.getD []) := by rfl
  have H := mermaid_stream_rendering {} .right mermaidDemoConn _ (by decide) hbody
  obtain ⟨swv, lines, vis, hgc, hlines, hsec, hper⟩ := H.2
  refine ⟨_, hbody, ?_, ?_, ?_⟩
  · obtain ⟨-, h5src, -, -, -⟩ := hper "Stream_5" (some "Unit_B", none) (by decide)
    obtain ⟨-, hdecl⟩ := h5src "Unit_B" rfl rfl
    exact hdecl "snk" (by decide)
  · obtain ⟨-, h5src, -, -, -⟩ := hper "Stream_5" (some "Unit_B", none) (by decide)
    obtain ⟨hl, -⟩ := h5src "Unit_B" rfl rfl
    exact hlines _ hl
  · obtain ⟨-, -, h4tgt, -, -⟩ := hper "Stream_4" (none, some "Unit_C") (by decide)
    obtain ⟨hl, -⟩ := h4tgt "Unit_C" rfl rfl
    exact hlines _ hl

end IC
